import Mathlib

/-
Shallow embedding of the fund-analysis engine's scoring, pre-filter,
ranking and NAV-normalization code, together with proofs about it.

Python floats are modelled as exact rationals; a possibly-NaN/None value
is `Option ℚ` (with `none` standing for NaN/None); a Python dict entry
that may be absent is `Option (Option ℚ)` (outer `none` = key absent).
Quantities the source computes with `sqrt`/fractional powers are real
numbers; every branch condition of the source remains a rational
(decidable) test.
-/

namespace Fund

/-- Factor weight configuration (dataclass `FactorWeight` in
`src/model/scoring_model.py`). -/
structure FactorWeight where
  name : String
  weight : ℚ
  higher_is_better : Bool := true
  min_value : Option ℚ := none
  max_value : Option ℚ := none
deriving DecidableEq

/-- `FactorWeight.normalize`: map a raw factor value (`none` = NaN/missing)
to a 0-100 score, linearly rescaling inside the configured bounds and
inverting when lower is better. -/
def FactorWeight.normalize (fw : FactorWeight) (value : Option ℚ) : ℚ :=
  match value with
  | none => 50
  | some v =>
    match fw.min_value, fw.max_value with
    | some mn, some mx =>
      if mx = mn then 50
      else
        let normalized := (v - mn) / (mx - mn) * 100
        let clamped := max 0 (min 100 normalized)
        if fw.higher_is_better then clamped else 100 - clamped
    | _, _ =>
      if fw.higher_is_better then min 100 (max 0 v)
      else min 100 (max 0 (100 - v))

/-- Dict lookup in a factor map (`fw.name in factors` / `factors[fw.name]`);
the outer `Option` is key presence, the inner one NaN-ness. -/
def lookupFactor (factors : List (String × Option ℚ)) (n : String) :
    Option (Option ℚ) :=
  (factors.find? (fun p => p.1 == n)).map Prod.snd

/-- Accumulation loop of `ScoringModel.calculate_category_score`:
returns (weighted_sum, total_weight, details). -/
def categoryParts (factors : List (String × Option ℚ)) :
    List FactorWeight → ℚ × ℚ × List (String × ℚ)
  | [] => (0, 0, [])
  | fw :: rest =>
    let r := categoryParts factors rest
    match lookupFactor factors fw.name with
    | none => r
    | some value =>
      let normalized := fw.normalize value
      (normalized * fw.weight + r.1, fw.weight + r.2.1,
        (fw.name, normalized) :: r.2.2)

/-- `ScoringModel.calculate_category_score`: weighted mean of the
normalized factors present in the map; 50 when none are present. -/
def calculate_category_score (factors : List (String × Option ℚ))
    (factor_weights : List FactorWeight) : ℚ × List (String × ℚ) :=
  let r := categoryParts factors factor_weights
  (if 0 < r.2.1 then r.1 / r.2.1 else 50, r.2.2)

/-- Fund-data dict as seen by the pre-filter rules
(`src/model/prefilter.py`). Outer `none` = key absent from the dict,
`some none` = key present with value `None`. -/
structure FundData where
  scale : Option (Option ℚ) := none
  tenure_years : Option (Option ℚ) := none
  manager_tenure : Option (Option ℚ) := none
  max_drawdown : Option (Option ℚ) := none
  sharpe_ratio : Option (Option ℚ) := none
  rank_pct_1y : Option (Option ℚ) := none
  rank_pct_2y : Option (Option ℚ) := none
  rank_pct_3y : Option (Option ℚ) := none
  rank_pct_6m : Option (Option ℚ) := none
  rank_pct_3m : Option (Option ℚ) := none
deriving DecidableEq

/-- Python `dict.get(key, default)`. -/
def dictGet (entry : Option (Option ℚ)) (default : Option ℚ) : Option ℚ :=
  match entry with
  | none => default
  | some v => v

/-- Python `x and x >= t` on a non-None float: `0` is falsy. -/
def truthyGe (v t : ℚ) : Bool :=
  !(v == 0) && decide (t ≤ v)

/-- Python `x and x > t` on a non-None float. -/
def truthyGt (v t : ℚ) : Bool :=
  !(v == 0) && decide (t < v)

/-- One sub-check of `Rule4433.check_4433`: 1 failure recorded when the
percentile is present and strictly above the threshold. -/
def subFail (p : Option ℚ) (t : ℚ) : ℕ :=
  match p with
  | none => 0
  | some x => if t < x then 1 else 0

/-- `Rule4433.check_4433`: (passed, number of recorded failures). -/
def check_4433 (rank_pct_1y rank_pct_2y rank_pct_3y rank_pct_6m
    rank_pct_3m : Option ℚ) : Bool × ℕ :=
  let fails := subFail rank_pct_1y 25 + subFail rank_pct_2y 25 +
    subFail rank_pct_3y 25 + subFail rank_pct_6m (3333/100) +
    subFail rank_pct_3m (3333/100)
  (fails == 0, fails)

/-- `Enhanced4433Rule.check`: classic 4433 plus Sharpe / drawdown /
manager-tenure side conditions; strict mode wants no failures, the
default mode wants at least 3 of the 4 bundled checks to pass. Both
branches of each side condition format the raw value with `.1f`/`.2f`
in the reason string, so a `None` Sharpe, drawdown or manager tenure
raises TypeError before any verdict is returned — modelled as `none`. -/
def enhancedCheck (strict : Bool) (fd : FundData) : Option Bool :=
  let f4433 := check_4433 (dictGet fd.rank_pct_1y none)
    (dictGet fd.rank_pct_2y none) (dictGet fd.rank_pct_3y none)
    (dictGet fd.rank_pct_6m none) (dictGet fd.rank_pct_3m none)
  let p4433 := f4433.1
  match dictGet fd.sharpe_ratio (some 0), dictGet fd.max_drawdown (some 0),
    dictGet fd.manager_tenure (some 0) with
  | some s, some d, some m =>
    let sharpePass := truthyGt s 1
    let ddPass := decide ((-25 : ℚ) < d)
    let mtPass := truthyGe m 2
    let passedCount : ℕ := (cond p4433 1 0) + (cond sharpePass 1 0) +
      (cond ddPass 1 0) + (cond mtPass 1 0)
    let failedCount : ℕ := (cond p4433 0 f4433.2) + (cond sharpePass 0 1) +
      (cond ddPass 0 1) + (cond mtPass 0 1)
    some (if strict then failedCount == 0 else decide (3 ≤ passedCount))
  | _, _, _ => none

/-- Closed sum of the pre-filter rule variants. -/
inductive Rule where
  | minScale (min_scale : ℚ)
  | minTenure (min_years : ℚ)
  | minManagerTenure (min_years : ℚ)
  | maxDrawdownRule (max_drawdown : ℚ)
  | enhanced4433 (strict : Bool)
deriving DecidableEq

/-- `PreFilterRule.is_required`: only MinScale and MinTenure are
constructed with `is_required=True`. -/
def Rule.is_required : Rule → Bool
  | .minScale _ => true
  | .minTenure _ => true
  | _ => false

/-- Dispatch of the `check` methods of the five rule classes. Every
`check` formats the raw value with `.1f`/`.2f` inside the reason string
of the branch a `None` value reaches (the falsy path of the three
threshold rules, the explicit is-None branch of the drawdown rule), so
a `None`-valued field raises TypeError instead of returning a verdict —
modelled as `none`; `some b` is the returned `passed` boolean. -/
def Rule.check : Rule → FundData → Option Bool
  | .minScale m, fd =>
    match dictGet fd.scale (some 0) with
    | none => none
    | some s => some (truthyGe s m)
  | .minTenure m, fd =>
    match dictGet fd.tenure_years (some 0) with
    | none => none
    | some s => some (truthyGe s m)
  | .minManagerTenure m, fd =>
    match dictGet fd.manager_tenure (some 0) with
    | none => none
    | some s => some (truthyGe s m)
  | .maxDrawdownRule t, fd =>
    match dictGet fd.max_drawdown (some 0) with
    | none => none
    | some d => some (decide (t ≤ d))
  | .enhanced4433 strict, fd => enhancedCheck strict fd

/-- Accumulation loop of `PreFilter.filter_single`: returns
(required_passed, optional_passed, optional_total), or `none` when some
rule's `check` raises — the loop propagates the exception. -/
def filterParts (fd : FundData) : List Rule → Option (Bool × ℕ × ℕ)
  | [] => some (true, 0, 0)
  | r :: rest =>
    match r.check fd with
    | none => none
    | some passed =>
      match filterParts fd rest with
      | none => none
      | some a =>
        if r.is_required then some (passed && a.1, a.2.1, a.2.2)
        else some (a.1, (cond passed 1 0) + a.2.1, 1 + a.2.2)

/-- `PreFilter.filter_single`: all required rules pass and the optional
rules reach at least half (`optional_passed >= optional_total / 2` with
true division); `none` when a rule check raises. -/
def filter_single (rules : List Rule) (fd : FundData) : Option Bool :=
  match filterParts fd rules with
  | none => none
  | some a =>
    some (a.1 && (a.2.2 == 0 || decide ((a.2.2 : ℚ) / 2 ≤ (a.2.1 : ℚ))))

/-- Rule list built by `PreFilter.__init__`. -/
def preFilterRules (min_scale min_tenure min_manager_tenure
    max_drawdown : ℚ) (use_4433 strict_4433 : Bool) : List Rule :=
  [Rule.minScale min_scale, Rule.minTenure min_tenure,
   Rule.minManagerTenure min_manager_tenure,
   Rule.maxDrawdownRule max_drawdown] ++
  (if use_4433 then [Rule.enhanced4433 strict_4433] else [])

/-- Default `PreFilter()` rule list. -/
def defaultPreFilterRules : List Rule :=
  preFilterRules 2 3 2 (-40) true false

/-- Insertion step of descending sort (`sorted(xs, reverse=True)`). -/
def insertDescQ (x : ℚ) : List ℚ → List ℚ
  | [] => [x]
  | y :: ys => if y < x then x :: y :: ys else y :: insertDescQ x ys

/-- Descending sort of a rational list. -/
def sortDescQ (l : List ℚ) : List ℚ := l.foldr insertDescQ []

/-- Insertion step of ascending sort (`sorted(xs)`). -/
def insertAscQ (x : ℚ) : List ℚ → List ℚ
  | [] => [x]
  | y :: ys => if x < y then x :: y :: ys else y :: insertAscQ x ys

/-- Ascending sort of a rational list. -/
def sortAscQ (l : List ℚ) : List ℚ := l.foldr insertAscQ []

/-- `FundDataProcessor.calculate_ranking_percentile`: the rank of the
fund inside the peer returns (1 + the number of peers scanned before the
loop's break), over the peer count, times 100; 50 for an empty peer list
or a NaN fund return. -/
def calculate_ranking_percentile (fund_return : Option ℚ)
    (all_returns : List (Option ℚ)) (higher_is_better : Bool) : ℚ :=
  if all_returns = [] ∨ fund_return = none then 50
  else
    let rs := all_returns.filterMap id
    if rs = [] then 50
    else
      let f := fund_return.getD 0
      let sorted := if higher_is_better then sortDescQ rs else sortAscQ rs
      let beforeBreak := sorted.takeWhile
        (fun r => if higher_is_better then !decide (r ≤ f) else !decide (f ≤ r))
      let rank := beforeBreak.length + 1
      (rank : ℚ) / (sorted.length : ℚ) * 100

/-- Canonical NAV row produced by the Series Normalizer; `none` models
NaT / NaN after coercion. -/
structure NavRow where
  date : Option ℤ
  nav : Option ℚ
  acc_nav : Option ℚ
deriving DecidableEq

/-- Sort key of a row (`sort_values('date')`); rows reaching the sort
have a parsed date. -/
def dateKey (r : NavRow) : ℤ := r.date.getD 0

/-- `drop_duplicates(subset=['date'])` with pandas' keep-first policy;
the accumulator carries the dates already seen. -/
def dedupByDate (seen : List (Option ℤ)) : List NavRow → List NavRow
  | [] => []
  | r :: rest =>
    if r.date ∈ seen then dedupByDate seen rest
    else r :: dedupByDate (r.date :: seen) rest

/-- Stable ascending insertion by date. -/
def insertByDate (r : NavRow) : List NavRow → List NavRow
  | [] => [r]
  | x :: xs => if dateKey r ≤ dateKey x then r :: x :: xs
    else x :: insertByDate r xs

/-- `sort_values('date')` on date-unique rows. -/
def sortByDate (l : List NavRow) : List NavRow := l.foldr insertByDate []

/-- `FundDataProcessor.process_nav_data` on a table already carrying the
canonical `date`/`nav`/`acc_nav` columns (the column-detection dispatch
resolves to those names, and `to_datetime`/`to_numeric` are the identity
on already-coerced data): drop rows with null date or nav, deduplicate
by date, sort ascending by date. -/
def process_nav_data (rows : List NavRow) : List NavRow :=
  let cleaned := rows.filter (fun r => r.date.isSome && r.nav.isSome)
  sortByDate (dedupByDate [] cleaned)

/-- `Series.pct_change().dropna()`: simple percentage change between
consecutive values. -/
def pctChange (l : List ℚ) : List ℚ :=
  List.zipWith (fun a b => b / a - 1) l l.tail

/-- Mean of a rational list (`Series.mean()`; ℚ division by zero is 0
where pandas would give NaN, and every use below is guarded exactly as
the source guards against the NaN case). -/
def listMean (l : List ℚ) : ℚ := l.sum / (l.length : ℚ)

/-- Sample variance with pandas' default `ddof=1` (the square of
`Series.std()`); 0 on lists of length ≤ 1, matching the source's
`std > 0` guards treating NaN as not-positive. -/
def sampleVar (l : List ℚ) : ℚ :=
  ((l.map (fun x => (x - listMean l) ^ 2)).sum) / ((l.length : ℚ) - 1)

/-- `(1 + daily_returns).cumprod()`. -/
def cumReturns (dr : List ℚ) : List ℚ :=
  (dr.scanl (fun acc r => acc * (1 + r)) 1).tail

/-- `(cumulative - running_max) / running_max` with the expanding max
carried through the fold. -/
def drawdownList (m : ℚ) : List ℚ → List ℚ
  | [] => []
  | c :: cs =>
    let m2 := max m c
    ((c - m2) / m2) :: drawdownList m2 cs

/-- Minimum of a rational list (`Series.min()`), 0 on the empty list. -/
def listMinQ : List ℚ → ℚ
  | [] => 0
  | x :: xs => xs.foldl min x

/-- `drawdown.min()`: the max drawdown implied by a daily-return list. -/
def maxDrawdownOf (dr : List ℚ) : ℚ :=
  match cumReturns dr with
  | [] => 0
  | c :: cs => listMinQ (drawdownList c (c :: cs))

/-- Negative daily returns (`daily_returns[daily_returns < 0]`). -/
def negRet (dr : List ℚ) : List ℚ := dr.filter (fun r => decide (r < 0))

/-- Value of a risk-adjusted ratio: a finite float or the sentinel
`float('inf')`. -/
inductive RatioVal where
  | finite (x : ℝ)
  | posInf

/-- `total_return = nav.iloc[-1] / nav.iloc[0] - 1`. -/
def navTotalReturn (nav : List ℚ) : ℚ :=
  nav.getLastD 0 / nav.headD 0 - 1

/-- `annual_volatility = daily_returns.std() * sqrt(250)`. -/
noncomputable def annualVolR (dr : List ℚ) : ℝ :=
  Real.sqrt (sampleVar dr) * Real.sqrt 250

/-- `annual_return = (1 + total_return) ** (1 / years) - 1 if years > 0
else 0` with `years = len(daily_returns) / 250`. -/
noncomputable def annualReturnR (nav : List ℚ) : ℝ :=
  let years : ℚ := ((pctChange nav).length : ℚ) / 250
  if 0 < years then
    Real.rpow (1 + (navTotalReturn nav : ℝ)) ((1 : ℝ) / (years : ℝ)) - 1
  else 0

/-- Risk-metric dict built by `FundDataProcessor.calculate_risk_metrics`
(`volatility` and
`max_drawdown` are stored ×100 as in the source). -/
structure RiskMetrics where
  volatility : ℝ
  max_drawdown : ℚ
  sharpe_ratio : RatioVal
  sortino_ratio : RatioVal
  calmar_ratio : RatioVal

/-- `FundDataProcessor.calculate_risk_metrics`: `none` models the empty
dict returned by the two insufficient-data guards. -/
noncomputable def calculate_risk_metrics (risk_free_rate : ℚ)
    (nav : List ℚ) : Option RiskMetrics :=
  if nav.length < 30 then none
  else
    let daily_returns := pctChange nav
    if daily_returns.length < 20 then none
    else
      let annual_volatility := annualVolR daily_returns
      let max_drawdown := maxDrawdownOf daily_returns
      let annual_return := annualReturnR nav
      let sharpe :=
        if 0 < annual_volatility then
          RatioVal.finite ((annual_return - (risk_free_rate : ℝ)) /
            annual_volatility)
        else RatioVal.finite 0
      let negative_returns := negRet daily_returns
      let sortino :=
        if 0 < negative_returns.length then
          (let downside_volatility := annualVolR negative_returns
           if 0 < downside_volatility then
             RatioVal.finite ((annual_return - (risk_free_rate : ℝ)) /
               downside_volatility)
           else RatioVal.finite 0)
        else RatioVal.posInf
      let calmar :=
        if max_drawdown ≠ 0 then
          RatioVal.finite (annual_return / |(max_drawdown : ℝ)|)
        else RatioVal.posInf
      some { volatility := annual_volatility * 100,
             max_drawdown := max_drawdown * 100,
             sharpe_ratio := sharpe, sortino_ratio := sortino, calmar_ratio := calmar }

/-- Ascending insertion of dated NAV points by date. -/
def insertAscPair (x : ℤ × ℚ) : List (ℤ × ℚ) → List (ℤ × ℚ)
  | [] => [x]
  | y :: ys => if x.1 ≤ y.1 then x :: y :: ys else y :: insertAscPair x ys

/-- `sort_values('date')` on dated NAV points. -/
def sortPairsAsc (l : List (ℤ × ℚ)) : List (ℤ × ℚ) :=
  l.foldr insertAscPair []

/-- Index lookup after `set_index('date')`. -/
def lookupDate (l : List (ℤ × ℚ)) (d : ℤ) : Option ℚ :=
  (l.find? (fun q => q.1 == d)).map Prod.snd

/-- `fund_df[['nav']].join(bench_df[['nav']]).dropna()`: fund rows, in
date order, paired with the benchmark NAV on the same date. -/
def mergedNavs (fund bench : List (ℤ × ℚ)) : List (ℚ × ℚ) :=
  (sortPairsAsc fund).filterMap
    (fun p => (lookupDate (sortPairsAsc bench) p.1).map (fun b => (p.2, b)))

/-- `excess_returns = fund_returns - bench_returns` over the joined
series. -/
def excessReturns (fund bench : List (ℤ × ℚ)) : List ℚ :=
  let merged := mergedNavs fund bench
  List.zipWith (fun a b => a - b)
    (pctChange (merged.map Prod.fst)) (pctChange (merged.map Prod.snd))

/-- `FactorCalculator._calculate_information_ratio`: annualized mean
excess return over annualized tracking error, 0 on the empty-input,
short-overlap and zero-tracking-error paths. -/
noncomputable def information_ratio (fund bench : List (ℤ × ℚ)) : ℝ :=
  if fund = [] ∨ bench = [] then 0
  else
    let merged := mergedNavs fund bench
    if merged.length < 30 then 0
    else
      let ex := excessReturns fund bench
      if 0 < Real.sqrt (sampleVar ex) then
        ((listMean ex : ℝ) * 250) / (Real.sqrt (sampleVar ex) * Real.sqrt 250)
      else 0

/-- Well-formed bounds: when both bounds are configured, min ≤ max. -/
def boundsOk (fw : FactorWeight) : Prop :=
  ∀ mn mx, fw.min_value = some mn → fw.max_value = some mx → mn ≤ mx

/-- An optional rank percentile passes an inclusive sub-check at `t`. -/
def optPass (p : Option ℚ) (t : ℚ) : Prop := ∀ x, p = some x → x ≤ t

/-- Scenario C fund: passes both required rules and exactly one of the
three optional rules, with every formatted field numeric. -/
def fdScenarioC : FundData :=
  { scale := some (some 10), tenure_years := some (some 5),
    manager_tenure := some (some 1), max_drawdown := some (some (-10)),
    sharpe_ratio := some (some (1/2)), rank_pct_1y := some (some 90) }

/-- Fund whose required rules pass and whose optional rules pass 2 of 3,
but whose Sharpe ratio is an explicit `None`: `Enhanced4433Rule.check`
raises TypeError formatting it, so `filter_single` never returns. -/
def fdRaises : FundData :=
  { scale := some (some 10), tenure_years := some (some 5),
    manager_tenure := some (some 5), max_drawdown := some (some (-10)),
    sharpe_ratio := some none }

/-- 30-point NAV series doubling daily: every daily return is exactly 1
(also in binary floating point), so the daily-return sample variance is
exactly 0 while the total return is positive. -/
def navEx : List ℚ := (List.range 30).map (fun i => (2 : ℚ) ^ i)

/-- Factor weight with inverted bounds (min_value > max_value). -/
def fwBad : FactorWeight :=
  { name := "f", weight := 1, higher_is_better := true,
    min_value := some 10, max_value := some 0 }

/-- Well-bounded higher-is-better factor weight (the `sharpe_ratio`
entry of the default risk-adjusted category). -/
def fwMono : FactorWeight :=
  { name := "s1", weight := 2/5, higher_is_better := true,
    min_value := some (-1), max_value := some 3 }

/-- Bounds of the clamp `max(0, min(100, x))`. -/
theorem clampMem (x : ℚ) : 0 ≤ max 0 (min 100 x) ∧ max 0 (min 100 x) ≤ 100 :=
  ⟨le_max_left _ _, max_le (by norm_num) (min_le_left _ _)⟩

/-- Bounds of the clamp `min(100, max(0, x))`. -/
theorem clampMem' (x : ℚ) : 0 ≤ min 100 (max 0 x) ∧ min 100 (max 0 x) ≤ 100 :=
  ⟨le_min (by norm_num) (le_max_left _ _), min_le_left _ _⟩

/-- C1: for every FactorWeight configuration and every input,
`FactorWeight.normalize` lands in [0,100]; a NaN/missing value gives the
neutral 50, and equal configured bounds give 50. -/
theorem c1_normalize_range (fw : FactorWeight) (v : Option ℚ) :
    (0 ≤ fw.normalize v ∧ fw.normalize v ≤ 100) ∧
    fw.normalize none = 50 ∧
    (∀ a, fw.min_value = some a → fw.max_value = some a →
      fw.normalize v = 50) := by
  refine ⟨?_, rfl, ?_⟩
  · cases v with
    | none => norm_num [FactorWeight.normalize]
    | some x =>
      simp only [FactorWeight.normalize]
      rcases fw.min_value with _ | mn <;> rcases fw.max_value with _ | mx <;>
        simp only []
      · obtain ⟨h1, h2⟩ := clampMem' x
        obtain ⟨h3, h4⟩ := clampMem' (100 - x)
        split_ifs <;> constructor <;> linarith
      · obtain ⟨h1, h2⟩ := clampMem' x
        obtain ⟨h3, h4⟩ := clampMem' (100 - x)
        split_ifs <;> constructor <;> linarith
      · obtain ⟨h1, h2⟩ := clampMem' x
        obtain ⟨h3, h4⟩ := clampMem' (100 - x)
        split_ifs <;> constructor <;> linarith
      · obtain ⟨h1, h2⟩ := clampMem ((x - mn) / (mx - mn) * 100)
        split_ifs <;> constructor <;> linarith
  · intro a hmn hmx
    cases v with
    | none => simp [FactorWeight.normalize]
    | some x => simp [FactorWeight.normalize, hmn, hmx]

/-- One sub-check of 4433 records no failure exactly when the percentile
is absent or inclusively below the threshold. -/
theorem subFail_eq_zero (p : Option ℚ) (t : ℚ) :
    subFail p t = 0 ↔ optPass p t := by
  cases p with
  | none => simp [subFail, optPass]
  | some x =>
    simp only [subFail, optPass]
    split_ifs with h
    · simp only [one_ne_zero, false_iff]
      intro hall
      exact absurd (hall x rfl) (not_le.mpr h)
    · simp only [true_iff]
      intro y hy
      cases hy
      exact le_of_not_lt h

/-- C4: the classic 4433 check passes exactly when every present
percentile is inclusively below its threshold — 25 for the 1/2/3-year
checks, 33.33 for the 3- and 6-month checks — a missing (None)
percentile passing its sub-check; at the boundary, a 1-year percentile
of exactly 25.0 passes while 25.01 fails. -/
theorem c4_check4433_inclusive (p1 p2 p3 p6 pm : Option ℚ) :
    ((check_4433 p1 p2 p3 p6 pm).1 = true ↔
      (optPass p1 25 ∧ optPass p2 25 ∧ optPass p3 25 ∧
       optPass p6 (3333/100) ∧ optPass pm (3333/100))) ∧
    (check_4433 (some 25) none none none none).1 = true ∧
    (check_4433 (some (2501/100)) none none none none).1 = false := by
  refine ⟨?_, by norm_num [check_4433, subFail],
    by norm_num [check_4433, subFail]⟩
  have key : (check_4433 p1 p2 p3 p6 pm).1 = true ↔
      (subFail p1 25 = 0 ∧ subFail p2 25 = 0 ∧ subFail p3 25 = 0 ∧
       subFail p6 (3333/100) = 0 ∧ subFail pm (3333/100) = 0) := by
    simp only [check_4433, beq_iff_eq]
    omega
  rw [key, subFail_eq_zero, subFail_eq_zero, subFail_eq_zero,
    subFail_eq_zero, subFail_eq_zero]

/-- C6: `MaxDrawdownRule.check` is inclusive — with a present, non-None
drawdown it passes exactly when drawdown ≥ threshold; at threshold −25 a
drawdown of exactly −25 passes, and any strictly smaller one fails. -/
theorem c6_max_drawdown_inclusive (t d : ℚ) (fd : FundData)
    (hd : fd.max_drawdown = some (some d)) :
    ((Rule.maxDrawdownRule t).check fd = some true ↔ t ≤ d) ∧
    ((Rule.maxDrawdownRule (-25)).check
      { max_drawdown := some (some (-25)) } = some true) ∧
    (∀ d', d' < -25 →
      (Rule.maxDrawdownRule (-25)).check
        { max_drawdown := some (some d') } = some false) := by
  refine ⟨?_, by decide, ?_⟩
  · simp [Rule.check, dictGet, hd]
  · intro d' h
    simp only [Rule.check, dictGet, Option.some.injEq,
      decide_eq_false_iff_not, not_le]
    linarith

/-- Witness for C6 at a concrete threshold and drawdown. -/
theorem c6_max_drawdown_inclusive_witness :
    ((Rule.maxDrawdownRule (-40)).check
      { max_drawdown := some (some (-25)) } = some true ↔
      (-40 : ℚ) ≤ -25) :=
  (c6_max_drawdown_inclusive (-40) (-25) _ rfl).1

/-- C10 counterexample: with max_drawdown mapped to an explicit None the
rule takes the is-None branch but then raises TypeError formatting
`{None:.1f}` in the reason string — `check` never returns passed=True,
refuting the claim's None-value half. -/
theorem c10_max_drawdown_none_counterexample :
    (Rule.maxDrawdownRule (-40)).check { max_drawdown := some none } =
      none ∧
    ¬ (Rule.maxDrawdownRule (-40)).check { max_drawdown := some none } =
      some true := by
  exact ⟨rfl, by decide⟩

/-- C10 amended: with a negative threshold, a missing max_drawdown key
defaults to 0 ≥ threshold and the rule passes; an explicit None value
instead raises TypeError inside the reason string, never returning a
verdict — only the missing-key case is harmless to this optional
rule. -/
theorem c10_max_drawdown_missing_passes (t : ℚ) (ht : t < 0) :
    (Rule.maxDrawdownRule t).check {} = some true ∧
    (Rule.maxDrawdownRule t).check { max_drawdown := some none } =
      none := by
  constructor
  · simp only [Rule.check, dictGet, Option.some.injEq, decide_eq_true_eq]
    linarith
  · rfl

/-- Witness for C10's amended statement at the default threshold −40. -/
theorem c10_max_drawdown_missing_passes_witness :
    (Rule.maxDrawdownRule (-40)).check {} = some true ∧
    (Rule.maxDrawdownRule (-40)).check { max_drawdown := some none } =
      none :=
  c10_max_drawdown_missing_passes (-40) (by norm_num)

/-- On fund data where no rule check raises, the `filter_single`
accumulator returns the all-required-pass flag, the count of passing
optional rules and the count of optional rules. -/
theorem filterParts_spec (fd : FundData) (rules : List Rule)
    (hok : ∀ r ∈ rules, r.check fd ≠ none) :
    filterParts fd rules = some
      (rules.all (fun r => ! Rule.is_required r ||
         decide (r.check fd = some true)),
       rules.countP (fun r => ! Rule.is_required r &&
         decide (r.check fd = some true)),
       rules.countP (fun r => ! Rule.is_required r)) := by
  induction rules with
  | nil => simp [filterParts]
  | cons r rest ih =>
    have hr := hok r (List.mem_cons_self r rest)
    have ihh := ih (fun g hg => hok g (List.mem_cons_of_mem r hg))
    cases hc : r.check fd with
    | none => exact absurd hc hr
    | some b =>
      simp only [filterParts, hc, ihh, List.all_cons, List.countP_cons]
      cases hreq : r.is_required <;> cases b <;>
        simp_all [hreq] <;> omega

/-- C3 counterexample: `fdRaises` passes both required rules and 2 of
its 3 optional rules, so the claim's condition for passing holds, yet
`filter_single` propagates the TypeError `Enhanced4433Rule.check`
raises formatting the None Sharpe ratio and never returns
passed=True. -/
theorem c3_filter_single_counterexample :
    defaultPreFilterRules.countP
      (fun r => Rule.is_required r &&
        !decide (r.check fdRaises = some true)) = 0 ∧
    defaultPreFilterRules.countP (fun r => ! Rule.is_required r) = 3 ∧
    defaultPreFilterRules.countP
      (fun r => ! Rule.is_required r &&
        decide (r.check fdRaises = some true)) = 2 ∧
    ((3 : ℚ) / 2 ≤ 2) ∧
    filter_single defaultPreFilterRules fdRaises = none ∧
    ¬ filter_single defaultPreFilterRules fdRaises = some true := by
  refine ⟨by decide, by decide, by decide, by norm_num, by decide,
    by decide⟩

/-- C3 amended: on fund data where every rule check returns a verdict
(no None value reaches a reason-string format), `filter_single` returns
True iff every required rule passes and either there is no optional
rule or at least half of them pass (a tie passes); with the default
rule set, a fund whose checks all return and which passes both required
rules but only 1 of the 3 optional rules is rejected. -/
theorem c3_filter_single_spec (rules : List Rule) (fd : FundData)
    (hok : ∀ r ∈ rules, r.check fd ≠ none) :
    (filter_single rules fd = some true ↔
      ((∀ r ∈ rules, Rule.is_required r = true →
         r.check fd = some true) ∧
       (rules.countP (fun r => ! Rule.is_required r) = 0 ∨
        (rules.countP (fun r => ! Rule.is_required r) : ℚ) / 2 ≤
          (rules.countP (fun r => ! Rule.is_required r &&
             decide (r.check fd = some true)) : ℚ)))) ∧
    (filter_single defaultPreFilterRules fdScenarioC = some false ∧
     (∀ r ∈ defaultPreFilterRules, Rule.is_required r = true →
       r.check fdScenarioC = some true) ∧
     defaultPreFilterRules.countP (fun r => ! Rule.is_required r) = 3 ∧
     defaultPreFilterRules.countP
       (fun r => ! Rule.is_required r &&
          decide (r.check fdScenarioC = some true)) = 1) := by
  refine ⟨?_, ?_, ?_, by decide, ?_⟩
  · rw [filter_single, filterParts_spec fd rules hok]
    simp only [Option.some.injEq, Bool.and_eq_true, Bool.or_eq_true,
      beq_iff_eq, decide_eq_true_eq, List.all_eq_true]
    constructor
    · rintro ⟨ha, hb⟩
      refine ⟨?_, hb⟩
      intro r hr hreq
      have := ha r hr
      simpa [hreq] using this
    · rintro ⟨ha, hb⟩
      refine ⟨?_, hb⟩
      intro r hr
      cases hreq : r.is_required with
      | false => simp [hreq]
      | true => simp [hreq, ha r hr hreq]
  · norm_num [filter_single, filterParts, defaultPreFilterRules,
      preFilterRules, Rule.check, Rule.is_required, truthyGe, truthyGt,
      dictGet, enhancedCheck, check_4433, subFail, fdScenarioC,
      show ((1 : ℕ) == 0) = false from rfl]
  · intro r hr hreq
    fin_cases hr <;> simp_all [Rule.is_required, Rule.check, truthyGe,
      dictGet, fdScenarioC, defaultPreFilterRules, preFilterRules] <;>
      norm_num
  · norm_num [defaultPreFilterRules, preFilterRules, List.countP,
      List.countP.go, Rule.check, Rule.is_required, truthyGe, truthyGt,
      dictGet, enhancedCheck, check_4433, subFail, fdScenarioC,
      show ((1 : ℕ) == 0) = false from rfl]

/-- Witness for C3's amended statement: the default rule set on the
Scenario C fund, on which every rule check returns a verdict. -/
theorem c3_filter_single_spec_witness :
    (filter_single defaultPreFilterRules fdScenarioC = some true ↔
      ((∀ r ∈ defaultPreFilterRules, Rule.is_required r = true →
         r.check fdScenarioC = some true) ∧
       (defaultPreFilterRules.countP
          (fun r => ! Rule.is_required r) = 0 ∨
        (defaultPreFilterRules.countP
           (fun r => ! Rule.is_required r) : ℚ) / 2 ≤
          (defaultPreFilterRules.countP
             (fun r => ! Rule.is_required r &&
               decide (r.check fdScenarioC = some true)) : ℚ)))) ∧
    (filter_single defaultPreFilterRules fdScenarioC = some false ∧
     (∀ r ∈ defaultPreFilterRules, Rule.is_required r = true →
       r.check fdScenarioC = some true) ∧
     defaultPreFilterRules.countP (fun r => ! Rule.is_required r) = 3 ∧
     defaultPreFilterRules.countP
       (fun r => ! Rule.is_required r &&
          decide (r.check fdScenarioC = some true)) = 1) :=
  c3_filter_single_spec defaultPreFilterRules fdScenarioC
    (by
      intro r hr
      fin_cases hr <;>
        simp [Rule.check, Rule.is_required, enhancedCheck, dictGet,
          fdScenarioC, defaultPreFilterRules, preFilterRules])

/-- Inserting into a descending list adds one to its length. -/
theorem insertDescQ_length (x : ℚ) (l : List ℚ) :
    (insertDescQ x l).length = l.length + 1 := by
  induction l with
  | nil => rfl
  | cons y ys ih =>
    simp only [insertDescQ]
    split_ifs <;> simp [ih]

/-- The descending sort preserves length. -/
theorem sortDescQ_length (l : List ℚ) : (sortDescQ l).length = l.length := by
  induction l with
  | nil => rfl
  | cons y ys ih =>
    simp only [sortDescQ, List.foldr_cons] at ih ⊢
    rw [insertDescQ_length, ih]
    simp

/-- Counting after a descending insertion. -/
theorem insertDescQ_countP (p : ℚ → Bool) (x : ℚ) (l : List ℚ) :
    (insertDescQ x l).countP p = l.countP p + (if p x then 1 else 0) := by
  induction l with
  | nil => simp [insertDescQ, List.countP_cons]
  | cons y ys ih =>
    simp only [insertDescQ]
    by_cases h : y < x
    · rw [if_pos h]
      simp only [List.countP_cons]
      try ring
    · rw [if_neg h]
      simp only [List.countP_cons, ih]
      try ring

/-- The descending sort preserves counts. -/
theorem sortDescQ_countP (p : ℚ → Bool) (l : List ℚ) :
    (sortDescQ l).countP p = l.countP p := by
  induction l with
  | nil => rfl
  | cons y ys ih =>
    simp only [sortDescQ, List.foldr_cons] at ih ⊢
    rw [insertDescQ_countP, ih, List.countP_cons]
    try ring

/-- Membership after a descending insertion. -/
theorem insertDescQ_mem {y x : ℚ} {l : List ℚ} :
    y ∈ insertDescQ x l ↔ y = x ∨ y ∈ l := by
  induction l with
  | nil => simp [insertDescQ]
  | cons z zs ih =>
    simp only [insertDescQ]
    split_ifs with h
    · simp
    · simp [ih]
      tauto

/-- Membership in the descending sort. -/
theorem sortDescQ_mem {y : ℚ} {l : List ℚ} :
    y ∈ sortDescQ l ↔ y ∈ l := by
  induction l with
  | nil => simp [sortDescQ]
  | cons z zs ih =>
    simp only [sortDescQ, List.foldr_cons] at ih ⊢
    rw [insertDescQ_mem, ih, List.mem_cons]

/-- Insertion preserves descending order. -/
theorem insertDescQ_pairwise (x : ℚ) (l : List ℚ)
    (h : l.Pairwise (· ≥ ·)) : (insertDescQ x l).Pairwise (· ≥ ·) := by
  induction l with
  | nil => simp [insertDescQ]
  | cons y ys ih =>
    rw [List.pairwise_cons] at h
    obtain ⟨hy, hys⟩ := h
    simp only [insertDescQ]
    split_ifs with hlt
    · rw [List.pairwise_cons]
      refine ⟨?_, List.pairwise_cons.mpr ⟨hy, hys⟩⟩
      intro z hz
      rcases List.mem_cons.mp hz with rfl | hz
      · exact le_of_lt hlt
      · exact le_trans (hy z hz) (le_of_lt hlt)
    · rw [List.pairwise_cons]
      refine ⟨?_, ih hys⟩
      intro z hz
      rcases insertDescQ_mem.mp hz with rfl | hz
      · exact not_lt.mp hlt
      · exact hy z hz

/-- The descending sort is descending. -/
theorem sortDescQ_pairwise (l : List ℚ) :
    (sortDescQ l).Pairwise (· ≥ ·) := by
  induction l with
  | nil => simp [sortDescQ]
  | cons y ys ih =>
    simp only [sortDescQ, List.foldr_cons] at ih ⊢
    exact insertDescQ_pairwise y _ ih

/-- In a descending list, the elements strictly above `f` form the
prefix the ranking loop scans before its break. -/
theorem takeWhile_length_eq_countP (f : ℚ) (l : List ℚ)
    (h : l.Pairwise (· ≥ ·)) :
    (l.takeWhile (fun r => !decide (r ≤ f))).length =
      l.countP (fun r => decide (f < r)) := by
  induction l with
  | nil => simp
  | cons y ys ih =>
    rw [List.pairwise_cons] at h
    obtain ⟨hy, hys⟩ := h
    rw [List.takeWhile_cons, List.countP_cons]
    by_cases hcase : f < y
    · have h1 : (!decide (y ≤ f)) = true := by
        rw [decide_eq_false (not_le.mpr hcase)]
        rfl
      rw [h1]
      simp [ih hys, hcase]
    · have h1 : (!decide (y ≤ f)) = false := by
        rw [decide_eq_true (not_lt.mp hcase)]
        rfl
      rw [h1]
      have hzero : ys.countP (fun r => decide (f < r)) = 0 := by
        rw [List.countP_eq_zero]
        intro z hz
        rw [decide_eq_true_eq]
        exact not_lt.mpr (le_trans (hy z hz) (not_lt.mp hcase))
      simp [hzero, hcase]

/-- The whole list is taken when the predicate holds everywhere. -/
theorem takeWhile_all_true (p : ℚ → Bool) (l : List ℚ)
    (h : ∀ x ∈ l, p x = true) : l.takeWhile p = l := by
  induction l with
  | nil => rfl
  | cons y ys ih =>
    rw [List.takeWhile_cons, h y (List.mem_cons_self y ys)]
    simp [ih (fun x hx => h x (List.mem_cons_of_mem y hx))]

/-- `filterMap id` undoes `map some`. -/
theorem filterMap_id_map_some (l : List ℚ) :
    List.filterMap id (l.map some) = l := by
  induction l with
  | nil => rfl
  | cons y ys ih => simp [List.filterMap_cons, ih]

/-- C9: when every peer strictly beats the fund's return, the rank
percentile is (n+1)/n × 100, strictly above 100 — the output is not
bounded by 100; an empty peer list or a NaN fund return yields 50. -/
theorem c9_percentile_not_bounded (v : ℚ) (peers : List ℚ)
    (hne : peers ≠ []) (hworst : ∀ p ∈ peers, v < p) :
    calculate_ranking_percentile (some v) (peers.map some) true =
      ((peers.length : ℚ) + 1) / (peers.length : ℚ) * 100 ∧
    100 < calculate_ranking_percentile (some v) (peers.map some) true ∧
    (∀ f hb, calculate_ranking_percentile f [] hb = 50) ∧
    (∀ ps hb, calculate_ranking_percentile none ps hb = 50) := by
  have hmain : calculate_ranking_percentile (some v) (peers.map some) true =
      ((peers.length : ℚ) + 1) / (peers.length : ℚ) * 100 := by
    simp only [calculate_ranking_percentile, filterMap_id_map_some]
    rw [if_neg (by simp [hne]), if_neg hne]
    simp only [if_true, Option.getD_some, Bool.true_eq_false,
      reduceIte]
    rw [takeWhile_all_true _ _
      (fun r hr => by
        rw [decide_eq_false (not_le.mpr (hworst r (sortDescQ_mem.mp hr)))]
        rfl)]
    rw [sortDescQ_length]
    push_cast
    ring
  have hn : (0 : ℚ) < (peers.length : ℚ) := by
    exact_mod_cast List.length_pos.mpr hne
  refine ⟨hmain, ?_, ?_, ?_⟩
  · rw [hmain, div_mul_eq_mul_div, lt_div_iff hn]
    linarith
  · intro f hb
    simp [calculate_ranking_percentile]
  · intro ps hb
    simp [calculate_ranking_percentile]

/-- Witness for C9: a fund with return 0 strictly below both peers
{1, 2}. -/
theorem c9_percentile_not_bounded_witness :
    calculate_ranking_percentile (some 0) ([1, 2].map some) true =
      ((([1, 2] : List ℚ).length : ℚ) + 1) /
        (([1, 2] : List ℚ).length : ℚ) * 100 ∧
    100 < calculate_ranking_percentile (some 0) ([1, 2].map some) true ∧
    (∀ f hb, calculate_ranking_percentile f [] hb = 50) ∧
    (∀ ps hb, calculate_ranking_percentile none ps hb = 50) :=
  c9_percentile_not_bounded 0 [1, 2] (by decide) (by decide)

/-- C2 counterexample: a fund return of 20 beats-or-ties both peers in
{10, 5}, so the claimed formula predicts 2/2 × 100 = 100, but the code
returns rank 1 of 2, i.e. 50. -/
theorem c2_rank_percentile_counterexample :
    calculate_ranking_percentile (some 20) [some 10, some 5] true = 50 ∧
    ([(10 : ℚ), 5].countP (fun r => decide (r ≤ 20)) = 2) ∧
    ((50 : ℚ) ≠ ((2 : ℚ) / 2) * 100) := by
  refine ⟨?_, by decide, by norm_num⟩
  norm_num [calculate_ranking_percentile, sortDescQ, insertDescQ,
    List.takeWhile, List.filterMap, List.foldr]

/-- C2 amended: for a non-empty list of non-NaN peer returns, the rank
percentile equals (1 + number of peers strictly greater than the fund's
return)/n × 100 — equivalently (n − beats_or_ties + 1)/n × 100 — rather
than beats_or_ties/n × 100. -/
theorem c2_rank_percentile_amended (v : ℚ) (peers : List ℚ)
    (hne : peers ≠ []) :
    calculate_ranking_percentile (some v) (peers.map some) true =
      ((peers.countP (fun r => decide (v < r)) : ℚ) + 1) /
        (peers.length : ℚ) * 100 := by
  simp only [calculate_ranking_percentile, filterMap_id_map_some]
  rw [if_neg (by simp [hne]), if_neg hne]
  simp only [if_true, Option.getD_some, Bool.true_eq_false, reduceIte]
  rw [takeWhile_length_eq_countP v _ (sortDescQ_pairwise peers)]
  rw [sortDescQ_countP, sortDescQ_length]
  push_cast
  ring

/-- Witness for C2's amended statement at fund return 0 and peers
{1, 2}. -/
theorem c2_rank_percentile_amended_witness :
    calculate_ranking_percentile (some 0) ([1, 2].map some) true =
      ((([1, 2] : List ℚ).countP (fun r => decide ((0 : ℚ) < r)) : ℚ) + 1) /
        (([1, 2] : List ℚ).length : ℚ) * 100 :=
  c2_rank_percentile_amended 0 [1, 2] (by decide)

/-- Monotonicity of `normalize` for a higher-is-better factor whose
bounds, when both set, satisfy min ≤ max. -/
theorem normalize_mono (fw : FactorWeight) (hh : fw.higher_is_better = true)
    (hb : boundsOk fw) {x1 x2 : ℚ} (h : x1 ≤ x2) :
    fw.normalize (some x1) ≤ fw.normalize (some x2) := by
  simp only [FactorWeight.normalize]
  rcases hmn : fw.min_value with _ | mn <;>
    rcases hmx : fw.max_value with _ | mx <;>
    simp only [hh, reduceIte]
  · exact min_le_min le_rfl (max_le_max le_rfl h)
  · exact min_le_min le_rfl (max_le_max le_rfl h)
  · exact min_le_min le_rfl (max_le_max le_rfl h)
  · split_ifs with heq
    · exact le_refl 50
    · have hbb : mn ≤ mx := hb mn mx hmn hmx
      have hd : (0 : ℚ) < mx - mn :=
        sub_pos.mpr (lt_of_le_of_ne hbb (fun e => heq e.symm))
      refine max_le_max le_rfl (min_le_min le_rfl ?_)
      apply mul_le_mul_of_nonneg_right _ (by norm_num : (0 : ℚ) ≤ 100)
      rw [div_le_div_iff hd hd]
      exact mul_le_mul_of_nonneg_right (by linarith) (le_of_lt hd)

/-- The category accumulator is monotone in one raised
higher-is-better factor and keeps the same total weight. -/
theorem categoryParts_mono (f : String)
    (m1 m2 : List (String × Option ℚ)) (x1 x2 : ℚ)
    (hagree : ∀ s, s ≠ f → lookupFactor m1 s = lookupFactor m2 s)
    (h1 : lookupFactor m1 f = some (some x1))
    (h2 : lookupFactor m2 f = some (some x2)) (hx : x1 ≤ x2)
    (fws : List FactorWeight)
    (hfws : ∀ g ∈ fws, g.name = f → g.higher_is_better = true ∧
      boundsOk g ∧ 0 ≤ g.weight) :
    (categoryParts m1 fws).1 ≤ (categoryParts m2 fws).1 ∧
    (categoryParts m1 fws).2.1 = (categoryParts m2 fws).2.1 := by
  induction fws with
  | nil => simp [categoryParts]
  | cons fw rest ih =>
    obtain ⟨ihs, ihw⟩ := ih (fun g hg => hfws g (List.mem_cons_of_mem fw hg))
    by_cases hname : fw.name = f
    · obtain ⟨hhib, hbk, hw⟩ := hfws fw (List.mem_cons_self fw rest) hname
      simp only [categoryParts, hname, h1, h2]
      constructor
      · exact add_le_add
          (mul_le_mul_of_nonneg_right (normalize_mono fw hhib hbk hx) hw)
          ihs
      · rw [ihw]
    · have hag := hagree fw.name hname
      simp only [categoryParts, hag]
      cases hl : lookupFactor m2 fw.name with
      | none => exact ⟨ihs, ihw⟩
      | some val =>
        exact ⟨add_le_add le_rfl ihs, by rw [ihw]⟩

/-- C7 counterexample: with inverted bounds (min 10 > max 0), a
higher-is-better, positive-weight factor's normalized value and its
category score strictly decrease when the raw value rises from 0 to
10. -/
theorem c7_monotonicity_counterexample :
    fwBad.higher_is_better = true ∧ 0 < fwBad.weight ∧ (0 : ℚ) ≤ 10 ∧
    fwBad.normalize (some 10) < fwBad.normalize (some 0) ∧
    (calculate_category_score [("f", some 10)] [fwBad]).1 <
      (calculate_category_score [("f", some 0)] [fwBad]).1 := by
  refine ⟨rfl, by norm_num [fwBad], by norm_num, ?_, ?_⟩
  · norm_num [fwBad, FactorWeight.normalize]
  · norm_num [calculate_category_score, categoryParts, lookupFactor,
      List.find?, fwBad, FactorWeight.normalize]

/-- C7 amended: for a higher-is-better, nonneg-bounds factor (bounds
absent or min ≤ max) with positive weight, raising its raw value while
holding all other factors fixed never decreases its normalized value
nor the category score of a weight list in which every entry for that
factor is so configured. -/
theorem c7_monotonicity_amended (fw : FactorWeight) (x1 x2 : ℚ)
    (f : String) (m1 m2 : List (String × Option ℚ))
    (fws : List FactorWeight)
    (hx : x1 ≤ x2) (hh : fw.higher_is_better = true) (hb : boundsOk fw)
    (hagree : ∀ s, s ≠ f → lookupFactor m1 s = lookupFactor m2 s)
    (h1 : lookupFactor m1 f = some (some x1))
    (h2 : lookupFactor m2 f = some (some x2))
    (hfws : ∀ g ∈ fws, g.name = f → g.higher_is_better = true ∧
      boundsOk g ∧ 0 < g.weight) :
    fw.normalize (some x1) ≤ fw.normalize (some x2) ∧
    (calculate_category_score m1 fws).1 ≤
      (calculate_category_score m2 fws).1 := by
  refine ⟨normalize_mono fw hh hb hx, ?_⟩
  obtain ⟨hs, hw⟩ := categoryParts_mono f m1 m2 x1 x2 hagree h1 h2 hx fws
    (fun g hg hn =>
      ⟨(hfws g hg hn).1, (hfws g hg hn).2.1, le_of_lt (hfws g hg hn).2.2⟩)
  simp only [calculate_category_score, hw]
  split_ifs with hpos
  · rw [div_le_div_iff hpos hpos]
    exact mul_le_mul_of_nonneg_right hs (le_of_lt hpos)
  · exact le_refl 50

/-- Witness for C7's amended statement: raising a well-bounded Sharpe
factor from 1 to 2. -/
theorem c7_monotonicity_amended_witness :
    fwMono.normalize (some 1) ≤ fwMono.normalize (some 2) ∧
    (calculate_category_score [("s1", some 1)] [fwMono]).1 ≤
      (calculate_category_score [("s1", some 2)] [fwMono]).1 := by
  have hb : boundsOk fwMono := by
    intro mn mx hmn hmx
    simp only [fwMono, Option.some.injEq] at hmn hmx
    rw [← hmn, ← hmx]
    norm_num
  refine c7_monotonicity_amended fwMono 1 2 "s1"
    [("s1", some 1)] [("s1", some 2)] [fwMono]
    (by norm_num) rfl hb ?_ ?_ ?_ ?_
  · intro s hs
    have hne : ("s1" == s) = false :=
      beq_eq_false_iff_ne.mpr (fun e => hs e.symm)
    simp [lookupFactor, List.find?, hne]
  · simp [lookupFactor, List.find?]
  · simp [lookupFactor, List.find?]
  · intro g hg hn
    rw [List.mem_singleton] at hg
    subst hg
    exact ⟨rfl, hb, by norm_num [fwMono]⟩

/-- Deduplication is the identity on date-distinct rows none of whose
dates were already seen. -/
theorem dedupByDate_eq_self (l : List NavRow) (seen : List (Option ℤ))
    (hseen : ∀ r ∈ l, r.date ∉ seen)
    (hnd : l.Pairwise (fun a b => a.date ≠ b.date)) :
    dedupByDate seen l = l := by
  induction l generalizing seen with
  | nil => rfl
  | cons r rest ih =>
    rw [List.pairwise_cons] at hnd
    obtain ⟨hr, hrest⟩ := hnd
    rw [dedupByDate, if_neg (hseen r (List.mem_cons_self r rest))]
    congr 1
    refine ih (r.date :: seen) ?_ hrest
    intro x hx
    rw [List.mem_cons]
    rintro (hd | hd)
    · exact hr x hx hd.symm
    · exact hseen x (List.mem_cons_of_mem r hx) hd

/-- Sorting is the identity on rows already ascending by date. -/
theorem sortByDate_eq_self (l : List NavRow)
    (h : l.Chain' (fun a b => dateKey a ≤ dateKey b)) :
    sortByDate l = l := by
  induction l with
  | nil => rfl
  | cons r rest ih =>
    have htail := h.tail
    simp only [sortByDate, List.foldr_cons] at ih ⊢
    rw [ih htail]
    cases rest with
    | nil => rfl
    | cons x xs =>
      have hle : dateKey r ≤ dateKey x := List.chain'_cons.mp h |>.1
      rw [insertByDate, if_pos hle]

/-- C8: `process_nav_data` is the identity on an already-canonical table
(all dates parsed, all navs numeric, strictly ascending by date): no row
is dropped, deduplicated or reordered. -/
theorem c8_process_nav_idempotent (rows : List NavRow)
    (hsome : ∀ r ∈ rows, r.date.isSome = true ∧ r.nav.isSome = true)
    (hsorted : rows.Chain' (fun a b => dateKey a < dateKey b)) :
    process_nav_data rows = rows := by
  have hfilter :
      rows.filter (fun r => r.date.isSome && r.nav.isSome) = rows := by
    rw [List.filter_eq_self]
    intro r hr
    obtain ⟨hd, hn⟩ := hsome r hr
    simp [hd, hn]
  have hpair : rows.Pairwise (fun a b => a.date ≠ b.date) := by
    have htr : IsTrans NavRow (fun a b => dateKey a < dateKey b) :=
      ⟨fun a b c h1 h2 => lt_trans h1 h2⟩
    refine (List.chain'_iff_pairwise.mp hsorted).imp ?_
    intro a b hab heq
    have : dateKey a = dateKey b := by rw [dateKey, dateKey, heq]
    omega
  simp only [process_nav_data, hfilter]
  rw [dedupByDate_eq_self rows [] (by simp) hpair]
  exact sortByDate_eq_self rows (hsorted.imp (fun _ _ hab => le_of_lt hab))

/-- Witness for C8 on a two-row canonical table. -/
theorem c8_process_nav_idempotent_witness :
    process_nav_data
      [⟨some 1, some 1, some 1⟩, ⟨some 2, some 2, some 2⟩] =
      [⟨some 1, some 1, some 1⟩, ⟨some 2, some 2, some 2⟩] :=
  c8_process_nav_idempotent _ (by decide)
    (by norm_num [List.chain'_cons, List.chain'_singleton, dateKey])

/-- `pct_change` yields one fewer point than the series. -/
theorem pctChange_length (l : List ℚ) :
    (pctChange l).length = l.length - 1 := by
  rw [pctChange, List.length_zipWith, List.length_tail]
  omega

/-- The annualized volatility is positive exactly when the
daily-return sample variance is. -/
theorem annualVolR_pos_iff (dr : List ℚ) :
    0 < annualVolR dr ↔ 0 < sampleVar dr := by
  rw [annualVolR]
  constructor
  · intro h
    by_contra hle
    have hz : Real.sqrt ((sampleVar dr : ℚ) : ℝ) = 0 :=
      Real.sqrt_eq_zero'.mpr (by exact_mod_cast not_lt.mp hle)
    rw [hz, zero_mul] at h
    exact lt_irrefl 0 h
  · intro h
    exact mul_pos (Real.sqrt_pos.mpr (by exact_mod_cast h))
      (Real.sqrt_pos.mpr (by norm_num))

/-- C5 amended: on any series passing the insufficient-data guards, the
zero-variance cases are sentinels, never errors: Sortino is +infinity
exactly when there are no negative daily returns and 0 when their
downside variance is 0; Calmar is +infinity exactly when the max
drawdown is 0; Sharpe is never +infinity and is 0 whenever the
daily-return variance is 0 (even for a positive return); the
information ratio is 0 whenever the excess-return variance is 0. -/
theorem c5_zero_variance_sentinels (rfr : ℚ) (nav : List ℚ)
    (h30 : 30 ≤ nav.length) :
    (calculate_risk_metrics rfr nav).isSome = true ∧
    (∀ m, calculate_risk_metrics rfr nav = some m →
      ((m.sortino_ratio = RatioVal.posInf ↔ negRet (pctChange nav) = []) ∧
       (negRet (pctChange nav) ≠ [] →
         sampleVar (negRet (pctChange nav)) = 0 →
         m.sortino_ratio = RatioVal.finite 0) ∧
       (m.calmar_ratio = RatioVal.posInf ↔
         maxDrawdownOf (pctChange nav) = 0) ∧
       m.sharpe_ratio ≠ RatioVal.posInf ∧
       (sampleVar (pctChange nav) = 0 →
         m.sharpe_ratio = RatioVal.finite 0))) ∧
    (∀ fund bench, sampleVar (excessReturns fund bench) = 0 →
      information_ratio fund bench = 0) := by
  have hg1 : ¬ nav.length < 30 := by omega
  have hg2 : ¬ (pctChange nav).length < 20 := by
    rw [pctChange_length]
    omega
  have heq : calculate_risk_metrics rfr nav = some
      { volatility := annualVolR (pctChange nav) * 100,
        max_drawdown := maxDrawdownOf (pctChange nav) * 100,
        sharpe_ratio :=
          if 0 < annualVolR (pctChange nav) then
            RatioVal.finite ((annualReturnR nav - (rfr : ℝ)) /
              annualVolR (pctChange nav))
          else RatioVal.finite 0,
        sortino_ratio :=
          if 0 < (negRet (pctChange nav)).length then
            (if 0 < annualVolR (negRet (pctChange nav)) then
              RatioVal.finite ((annualReturnR nav - (rfr : ℝ)) /
                annualVolR (negRet (pctChange nav)))
            else RatioVal.finite 0)
          else RatioVal.posInf,
        calmar_ratio :=
          if maxDrawdownOf (pctChange nav) ≠ 0 then
            RatioVal.finite (annualReturnR nav /
              |((maxDrawdownOf (pctChange nav) : ℚ) : ℝ)|)
          else RatioVal.posInf } := by
    simp only [calculate_risk_metrics]
    rw [if_neg hg1, if_neg hg2]
  refine ⟨by rw [heq]; rfl, ?_, ?_⟩
  · intro m hm
    rw [heq, Option.some.injEq] at hm
    subst hm
    refine ⟨?_, ?_, ?_, ?_, ?_⟩
    · simp only [RiskMetrics.sortino_ratio]
      by_cases hneg : negRet (pctChange nav) = []
      · simp [hneg]
      · rw [if_pos (List.length_pos.mpr hneg)]
        split_ifs <;> simp [hneg]
    · intro hne hvar
      simp only [RiskMetrics.sortino_ratio]
      rw [if_pos (List.length_pos.mpr hne),
        if_neg (fun hpos => by
          rw [annualVolR_pos_iff, hvar] at hpos
          exact lt_irrefl 0 hpos)]
    · simp only [RiskMetrics.calmar_ratio]
      split_ifs with h
      · simp [h]
      · simp [not_not.mp h]
    · simp only [RiskMetrics.sharpe_ratio]
      split_ifs <;> simp
    · intro hvar
      simp only [RiskMetrics.sharpe_ratio]
      rw [if_neg (fun hpos => by
        rw [annualVolR_pos_iff, hvar] at hpos
        exact lt_irrefl 0 hpos)]
  · intro fund bench hvar
    simp only [information_ratio]
    split_ifs with h1 h2 h3
    · rfl
    · rfl
    · exfalso
      rw [show ((sampleVar (excessReturns fund bench) : ℚ) : ℝ) = 0 by
        exact_mod_cast hvar] at h3
      rw [Real.sqrt_zero] at h3
      exact lt_irrefl 0 h3
    · rfl

/-- Witness for C5's amended statement on the doubling 30-point
series. -/
theorem c5_zero_variance_sentinels_witness :
    (calculate_risk_metrics (1/40) navEx).isSome = true ∧
    (∀ m, calculate_risk_metrics (1/40) navEx = some m →
      ((m.sortino_ratio = RatioVal.posInf ↔ negRet (pctChange navEx) = []) ∧
       (negRet (pctChange navEx) ≠ [] →
         sampleVar (negRet (pctChange navEx)) = 0 →
         m.sortino_ratio = RatioVal.finite 0) ∧
       (m.calmar_ratio = RatioVal.posInf ↔
         maxDrawdownOf (pctChange navEx) = 0) ∧
       m.sharpe_ratio ≠ RatioVal.posInf ∧
       (sampleVar (pctChange navEx) = 0 →
         m.sharpe_ratio = RatioVal.finite 0))) ∧
    (∀ fund bench, sampleVar (excessReturns fund bench) = 0 →
      information_ratio fund bench = 0) :=
  c5_zero_variance_sentinels (1/40) navEx (by simp [navEx])

/-- C5 counterexample: on the doubling 30-point series the total return
is positive and the volatility term is exactly zero, yet the code
reports Sharpe 0, not the +infinity the claim requires when the risk
term is 0 and the return is positive. -/
theorem c5_sharpe_zero_vol_counterexample :
    0 < navTotalReturn navEx ∧
    sampleVar (pctChange navEx) = 0 ∧
    (calculate_risk_metrics (1/40) navEx).map RiskMetrics.sharpe_ratio =
      some (RatioVal.finite 0) ∧
    RatioVal.finite (0 : ℝ) ≠ RatioVal.posInf := by
  have hpc : pctChange navEx = List.replicate 29 1 := by
    norm_num [navEx, pctChange, List.range_succ, List.zipWith,
      List.replicate]
  have hvar : sampleVar (pctChange navEx) = 0 := by
    rw [hpc]
    norm_num [sampleVar, listMean, List.replicate, List.sum_cons, List.map]
  refine ⟨?_, hvar, ?_, by simp⟩
  · norm_num [navTotalReturn, navEx, List.range_succ]
  · have h30 : ¬ navEx.length < 30 := by simp [navEx]
    have h20 : ¬ (pctChange navEx).length < 20 := by
      rw [hpc]
      simp
    simp only [calculate_risk_metrics]
    rw [if_neg h30, if_neg h20]
    simp only [Option.map_some', RiskMetrics.sharpe_ratio]
    rw [if_neg (fun hpos => by
      rw [annualVolR_pos_iff, hvar] at hpos
      exact lt_irrefl 0 hpos)]

end Fund
